import Mathlib

/-!
Verification of the go-minhash package core (minhash.go) against its
natural-language specification.

Modelling conventions:
* Go byte slices are `List Nat` with each entry a byte value below 256.
* Go `uint64` values are `Nat` with explicit `% 2 ^ 64` where wraparound
  matters; Go `int`/`int64` values are `Int`.
* Go `float64` similarity values are modelled as exact rationals `ℚ`; the
  claims under study concern the exact branch structure and the algebraic
  formula of `Intersection`, which the rational model renders faithfully.
* A Go function that can panic is embedded with result type `Except String _`;
  a panic is an `Except.error`.
-/

namespace Minhash

/-- A Go byte slice: a list of byte values. -/
abbrev GoBytes := List Nat

/-- Constant `infinity` from minhash.go: `math.MaxUint64`, the sentinel
meaning "no element seen yet" in a signature slot. -/
def infinity : Nat := 2 ^ 64 - 1

/-- `Signature` from minhash.go: an array of uint64 values representing the
signature of a set. -/
abbrev Signature := List Nat

/-- `defaultSignature` from minhash.go: allocates a signature of the given
size and sets every slot to the sentinel `infinity`. -/
def defaultSignature (size : Nat) : Signature :=
  List.replicate size infinity

/-- The unsigned integer kinds named in the type switch of `toBytes`:
`uint, uint16, uint32, uint64`. -/
inductive UKind where
  | u
  | u16
  | u32
  | u64
deriving DecidableEq

/-- The signed integer kinds named in the type switch of `toBytes`:
`int, int16, int32, int64`. -/
inductive IKind where
  | i
  | i16
  | i32
  | i64
deriving DecidableEq

/-- A dynamically typed Go value (`interface` value) restricted to the
dynamic types inspected by `toBytes`: byte slices, strings, the unsigned
and signed integer kinds of its type switch, and `other` for any dynamic
type the switch does not mention (which falls through to the default
8-zero-byte buffer). -/
inductive GoValue where
  | bytes (b : GoBytes)
  | str (s : String)
  | uintVal (k : UKind) (v : Nat)
  | intVal (k : IKind) (v : Int)
  | other

/-- UTF-8 encoding of a single character, as Go produces for `[]byte(s)`. -/
def charUTF8 (c : Char) : List Nat :=
  let n := c.toNat
  if n < 0x80 then [n]
  else if n < 0x800 then [0xC0 + n / 64, 0x80 + n % 64]
  else if n < 0x10000 then
    [0xE0 + n / 4096, 0x80 + n / 64 % 64, 0x80 + n % 64]
  else
    [0xF0 + n / 262144, 0x80 + n / 4096 % 64, 0x80 + n / 64 % 64, 0x80 + n % 64]

/-- Go's `[]byte(s)`: the UTF-8 bytes of the string. -/
def strBytes (s : String) : GoBytes :=
  (s.data.map charUTF8).flatten

/-- `binary.LittleEndian.PutUint64` into a fresh 8-byte buffer: the 8-byte
little-endian encoding of a 64-bit value. -/
def leBytes64 (n : Nat) : GoBytes :=
  [n % 256, n / 2 ^ 8 % 256, n / 2 ^ 16 % 256, n / 2 ^ 24 % 256,
   n / 2 ^ 32 % 256, n / 2 ^ 40 % 256, n / 2 ^ 48 % 256, n / 2 ^ 56 % 256]

/-- `toBytes` from minhash.go.  The Go type switch groups several types per
case (`case uint, uint16, uint32, uint64:`), so inside the case the switch
variable `t` still has the interface type and `t.(uint64)` is a dynamic
type assertion: it succeeds only when the dynamic type is exactly `uint64`
and panics otherwise.  Likewise `t.(int64)` in the signed case.  A panic is
modelled as `Except.error`. -/
def toBytes : GoValue → Except String GoBytes
  | .bytes b => .ok b
  | .str s => .ok (strBytes s)
  | .uintVal k v =>
    match k with
    | .u64 => .ok (leBytes64 (v % 2 ^ 64))
    | _ => .error "interface conversion: dynamic type is not uint64"
  | .intVal k v =>
    match k with
    | .i64 => .ok (leBytes64 ((v % (2 ^ 64 : Int)).toNat))
    | _ => .error "interface conversion: dynamic type is not int64"
  | .other => .ok (List.replicate 8 0)

/-- `math.MaxUint64`, the range limit used by `strconv.ParseUint` with
bit size 64. -/
def maxUint64 : Nat := 2 ^ 64 - 1

/-- Digit value of a character as Go's `strconv` computes it
(`'0'..'9'`, then letters case-insensitively as 10..35). -/
def digitVal (c : Char) : Option Nat :=
  if '0' ≤ c ∧ c ≤ '9' then some (c.toNat - '0'.toNat)
  else if 'a' ≤ c ∧ c ≤ 'z' then some (c.toNat - 'a'.toNat + 10)
  else if 'A' ≤ c ∧ c ≤ 'Z' then some (c.toNat - 'A'.toNat + 10)
  else none

/-- The digit-accumulation loop of `strconv.ParseUint` at bit size 64:
underscores are skipped (base-0 mode; their placement is checked
separately), an invalid digit or a digit out of range for the base is a
syntax error, and exceeding `maxUint64` is a range error.  Both error kinds
make `ParseUint` return a non-nil error, which is all the caller inspects,
so both are `none` here. -/
def parseDigits (base : Nat) : List Char → Nat → Option Nat
  | [], n => some n
  | c :: cs, n =>
    if c = '_' then parseDigits base cs n
    else
      match digitVal c with
      | none => none
      | some d =>
        if base ≤ d then none
        else if maxUint64 < n * base + d then none
        else parseDigits base cs (n * base + d)

/-- The state machine of Go's `strconv.underscoreOK` main loop.  `saw` is
the class of the previous character: a digit or base prefix, an
underscore, the beginning of the number, or anything else. -/
def underscoreOKAux (hex : Bool) : List Char → Char → Bool
  | [], saw => saw ≠ '_'
  | c :: cs, saw =>
    if ('0' ≤ c ∧ c ≤ '9') ∨ (hex ∧ 'a' ≤ c.toLower ∧ c.toLower ≤ 'f') then
      underscoreOKAux hex cs '0'
    else if c = '_' then
      if saw ≠ '0' then false else underscoreOKAux hex cs '_'
    else if saw = '_' then false
    else underscoreOKAux hex cs '!'

/-- Go's `strconv.underscoreOK`: underscores must sit between digits (a
base prefix counts as a digit). -/
def underscoreOK (cs : List Char) : Bool :=
  let cs' :=
    match cs with
    | c :: rest => if c = '-' ∨ c = '+' then rest else c :: rest
    | [] => []
  match cs' with
  | '0' :: c2 :: rest =>
    if c2.toLower = 'b' ∨ c2.toLower = 'o' ∨ c2.toLower = 'x' then
      underscoreOKAux (c2.toLower = 'x') rest '0'
    else underscoreOKAux false ('0' :: c2 :: rest) '^'
  | _ => underscoreOKAux false cs' '^'

/-- Base detection of `strconv.ParseUint` with base argument 0: `0b`/`0B`
means binary, `0o`/`0O` means octal, `0x`/`0X` means hexadecimal (each
only when at least one character follows the prefix), any other leading
`0` means octal, otherwise decimal. -/
def detectBase : List Char → Nat × List Char
  | '0' :: c2 :: rest =>
    if c2.toLower = 'b' ∧ rest ≠ [] then (2, rest)
    else if c2.toLower = 'o' ∧ rest ≠ [] then (8, rest)
    else if c2.toLower = 'x' ∧ rest ≠ [] then (16, rest)
    else (8, c2 :: rest)
  | '0' :: rest => (8, rest)
  | cs => (10, cs)

/-- `strconv.ParseUint(s, 0, 64)`: empty input is an error; the base is
inferred from the prefix; digits are accumulated with a 64-bit range
check; if any underscore occurred, its placement in the original string
must be legal.  `none` models a non-nil error. -/
def parseUint0 (s : String) : Option Nat :=
  match s.data with
  | [] => none
  | cs =>
    let bd := detectBase cs
    match parseDigits bd.1 bd.2 0 with
    | none => none
    | some n => if cs.contains '_' && !underscoreOK cs then none else some n

/-- `stringIntToByte` from minhash.go: parse the string as a uint64 with
inferred base; on error fall back to the raw text bytes, otherwise feed
the parsed `uint64` value to `toBytes`. -/
def stringIntToByte (s : String) : Except String GoBytes :=
  match parseUint0 s with
  | none => .ok (strBytes s)
  | some n => toBytes (.uintVal .u64 n)

/-- `Intersection` from minhash.go: estimates the intersection cardinality
from a Jaccard similarity and two set sizes.  `js == 0` short-circuits to
0; otherwise the code computes `int(math.Floor(float64(size1+size2) /
((1.0/js) + 1)))`, here over exact rationals. -/
def Intersection (js : ℚ) (size1 size2 : ℤ) : ℤ :=
  if js = 0 then 0
  else ⌊((size1 + size2 : ℤ) : ℚ) / (1 / js + 1)⌋

/-- Modelled from the spec: the concrete MinWise sketch (its `Push` and
`Merge`) is not among the provided source files; only the `MinHash`
interface declaring them is.  Spec §4.1: the hash family derives slot
functions from two base hashes as `slot_i(x) = h1(x) + i * h2(x)` for
`i = 1..k`, with 64-bit wraparound.  Slot index `i` here is 0-based, so
slot `i` uses multiplier `i + 1`. -/
def slotHash (h1 h2 : GoBytes → Nat) (b : GoBytes) (i : Nat) : Nat :=
  (h1 b + (i + 1) * h2 b) % 2 ^ 64

/-- Modelled from the spec: the slot-update loop of `Push`/Ingest (§4.2),
walking the signature and replacing slot `i` by
`min(signature[i], slot_i(bytes))`; `j` is the index of the first slot of
the remaining list. -/
def ingestFrom (h1 h2 : GoBytes → Nat) (b : GoBytes) : Nat → Signature → Signature
  | _, [] => []
  | j, v :: rest => min v (slotHash h1 h2 b j) :: ingestFrom h1 h2 b (j + 1) rest

/-- Modelled from the spec: Ingest/`Push` of one element (§4.2), updating
every slot of the signature. -/
def ingest (h1 h2 : GoBytes → Nat) (sig : Signature) (b : GoBytes) : Signature :=
  ingestFrom h1 h2 b 0 sig

/-- Modelled from the spec: the signature obtained by streaming a list of
element byte sequences into a fresh length-`k` sketch (§4.2, §3). -/
def minwiseSignature (h1 h2 : GoBytes → Nat) (k : Nat) (xs : List GoBytes) : Signature :=
  xs.foldl (ingest h1 h2) (defaultSignature k)

/-- Modelled from the spec: `Merge` (§4.2), the slot-wise minimum of two
equal-length signatures; differing lengths are an incompatibility error. -/
def mergeSig (s t : Signature) : Except String Signature :=
  if s.length = t.length then .ok (List.zipWith min s t)
  else .error "minhash signatures must have equal length"

lemma length_ingestFrom (h1 h2 : GoBytes → Nat) (b : GoBytes) :
    ∀ (j : Nat) (s : Signature), (ingestFrom h1 h2 b j s).length = s.length := by
  intro j s
  induction s generalizing j with
  | nil => rfl
  | cons v rest ih => simpa [ingestFrom] using ih (j + 1)

lemma length_foldl_ingest (h1 h2 : GoBytes → Nat) (xs : List GoBytes) :
    ∀ s : Signature, (xs.foldl (ingest h1 h2) s).length = s.length := by
  induction xs with
  | nil => intro s; rfl
  | cons x xs ih =>
    intro s
    simpa [List.foldl_cons, ih, ingest] using length_ingestFrom h1 h2 x 0 s

lemma length_minwiseSignature (h1 h2 : GoBytes → Nat) (k : Nat) (xs : List GoBytes) :
    (minwiseSignature h1 h2 k xs).length = k := by
  simpa [minwiseSignature, defaultSignature] using
    length_foldl_ingest h1 h2 xs (defaultSignature k)

lemma mem_ingestFrom_le (h1 h2 : GoBytes → Nat) (b : GoBytes) :
    ∀ (j : Nat) (s : Signature), (∀ x ∈ s, x ≤ infinity) →
      ∀ x ∈ ingestFrom h1 h2 b j s, x ≤ infinity := by
  intro j s
  induction s generalizing j with
  | nil => intro _ x hx; cases hx
  | cons v rest ih =>
    intro hs x hx
    rcases List.mem_cons.mp hx with hx | hx
    · subst hx
      exact le_trans (min_le_left _ _) (hs v (by simp))
    · exact ih (j + 1) (fun y hy => hs y (by simp [hy])) x hx

lemma mem_foldl_ingest_le (h1 h2 : GoBytes → Nat) (xs : List GoBytes) :
    ∀ s : Signature, (∀ x ∈ s, x ≤ infinity) →
      ∀ x ∈ xs.foldl (ingest h1 h2) s, x ≤ infinity := by
  induction xs with
  | nil => intro s hs; exact hs
  | cons y ys ih =>
    intro s hs
    exact ih (ingest h1 h2 s y) (mem_ingestFrom_le h1 h2 y 0 s hs)

lemma mem_minwiseSignature_le (h1 h2 : GoBytes → Nat) (k : Nat) (xs : List GoBytes) :
    ∀ x ∈ minwiseSignature h1 h2 k xs, x ≤ infinity := by
  refine mem_foldl_ingest_le h1 h2 xs (defaultSignature k) ?_
  intro x hx
  exact le_of_eq (List.eq_of_mem_replicate hx)

lemma zipWith_min_ingestFrom (h1 h2 : GoBytes → Nat) (b : GoBytes) :
    ∀ (j : Nat) (s t : Signature), s.length = t.length →
      List.zipWith min s (ingestFrom h1 h2 b j t)
        = ingestFrom h1 h2 b j (List.zipWith min s t) := by
  intro j s
  induction s generalizing j with
  | nil => intro t _; rfl
  | cons a s ih =>
    intro t hlen
    cases t with
    | nil => simp at hlen
    | cons v t =>
      simp only [ingestFrom, List.zipWith_cons_cons, Nat.min_assoc]
      exact congrArg _ (ih (j + 1) t (by simpa using hlen))

lemma zipWith_min_foldl_ingest (h1 h2 : GoBytes → Nat) (ys : List GoBytes) :
    ∀ (s t : Signature), s.length = t.length →
      List.zipWith min s (ys.foldl (ingest h1 h2) t)
        = ys.foldl (ingest h1 h2) (List.zipWith min s t) := by
  induction ys with
  | nil => intro s t _; rfl
  | cons y ys ih =>
    intro s t hlen
    simp only [List.foldl_cons]
    rw [ih s (ingest h1 h2 t y) (by rw [hlen]; exact (length_ingestFrom h1 h2 y 0 t).symm)]
    rw [show ingest h1 h2 t y = ingestFrom h1 h2 y 0 t from rfl,
      zipWith_min_ingestFrom h1 h2 y 0 s t hlen]
    rfl

lemma zipWith_min_replicate_infinity :
    ∀ s : Signature, (∀ x ∈ s, x ≤ infinity) →
      List.zipWith min s (List.replicate s.length infinity) = s := by
  intro s
  induction s with
  | nil => intro _; rfl
  | cons a s ih =>
    intro hs
    simp only [List.length_cons, List.replicate_succ, List.zipWith_cons_cons]
    rw [min_eq_left (hs a (by simp)), ih (fun y hy => hs y (by simp [hy]))]

/-- C1: for two streams sketched with the same hash family and the same
signature length, merging their MinWise signatures yields, slot by slot,
exactly the signature that streaming the union of the two element streams
(their concatenation) would produce. -/
theorem merge_eq_union_signature (h1 h2 : GoBytes → Nat) (k : Nat)
    (xs ys : List GoBytes) :
    mergeSig (minwiseSignature h1 h2 k xs) (minwiseSignature h1 h2 k ys)
      = Except.ok (minwiseSignature h1 h2 k (xs ++ ys)) := by
  have hlx := length_minwiseSignature h1 h2 k xs
  have hly := length_minwiseSignature h1 h2 k ys
  unfold mergeSig
  rw [if_pos (hlx.trans hly.symm)]
  have hstep : List.zipWith min (minwiseSignature h1 h2 k xs) (minwiseSignature h1 h2 k ys)
      = ys.foldl (ingest h1 h2)
          (List.zipWith min (minwiseSignature h1 h2 k xs) (defaultSignature k)) :=
    zipWith_min_foldl_ingest h1 h2 ys _ _ (by rw [hlx]; simp [defaultSignature])
  have habsorb : List.zipWith min (minwiseSignature h1 h2 k xs) (defaultSignature k)
      = minwiseSignature h1 h2 k xs := by
    have h := zipWith_min_replicate_infinity (minwiseSignature h1 h2 k xs)
      (mem_minwiseSignature_le h1 h2 k xs)
    rwa [hlx] at h
  rw [hstep, habsorb]
  simp only [minwiseSignature, List.foldl_append]

/-- C2: with similarity 0, `Intersection` returns exactly 0 for all
non-negative set sizes, as a normal return value. -/
theorem Intersection_zero_similarity (n m : ℤ) (_hn : 0 ≤ n) (_hm : 0 ≤ m) :
    Intersection 0 n m = 0 := by
  simp [Intersection]

/-- Witness for C2 at n = 2, m = 3. -/
theorem Intersection_zero_similarity_witness :
    0 ≤ (2 : ℤ) ∧ 0 ≤ (3 : ℤ) ∧ Intersection 0 2 3 = 0 :=
  ⟨by decide, by decide, Intersection_zero_similarity 2 3 (by decide) (by decide)⟩

/-- C3: for `0 < js ≤ 1` and non-negative sizes, `Intersection js n m`
returns the floor of `(n + m) / (1/js + 1)`. -/
theorem Intersection_formula (js : ℚ) (n m : ℤ) (h0 : 0 < js) (_h1 : js ≤ 1)
    (_hn : 0 ≤ n) (_hm : 0 ≤ m) :
    Intersection js n m = ⌊((n : ℚ) + (m : ℚ)) / (1 / js + 1)⌋ := by
  unfold Intersection
  rw [if_neg h0.ne', Int.cast_add]

/-- Witness for C3 at js = 1/2, n = 3, m = 4. -/
theorem Intersection_formula_witness :
    0 < (1 / 2 : ℚ) ∧ (1 / 2 : ℚ) ≤ 1 ∧ 0 ≤ (3 : ℤ) ∧ 0 ≤ (4 : ℤ) ∧
      Intersection (1 / 2) 3 4 = ⌊((3 : ℚ) + (4 : ℚ)) / (1 / (1 / 2) + 1)⌋ :=
  ⟨by norm_num, by norm_num, by decide, by decide,
    Intersection_formula (1 / 2) 3 4 (by norm_num) (by norm_num) (by decide) (by decide)⟩

/-- C4: with similarity 1 and equal sizes, `Intersection` returns the size
itself. -/
theorem Intersection_full_similarity (n : ℤ) (_hn : 0 ≤ n) :
    Intersection 1 n n = n := by
  unfold Intersection
  rw [if_neg one_ne_zero]
  have h : ((n + n : ℤ) : ℚ) / (1 / 1 + 1) = (n : ℚ) := by
    push_cast
    ring
  rw [h, Int.floor_intCast]

/-- Witness for C4 at n = 5: `Intersection(1.0, 5, 5) = 5`. -/
theorem Intersection_full_similarity_witness :
    0 ≤ (5 : ℤ) ∧ Intersection 1 5 5 = 5 :=
  ⟨by decide, Intersection_full_similarity 5 (by decide)⟩

/-- C5: `stringIntToByte` never fails: it always returns a byte slice,
namely the little-endian encoding of the parsed value when
`ParseUint(s, 0, 64)` succeeds and the raw UTF-8 text bytes of `s` when
parsing fails. -/
theorem stringIntToByte_never_fails (s : String) :
    ∃ b : GoBytes, stringIntToByte s = Except.ok b ∧
      ((∃ n, parseUint0 s = some n ∧ b = leBytes64 (n % 2 ^ 64)) ∨
        (parseUint0 s = none ∧ b = strBytes s)) := by
  unfold stringIntToByte
  cases hp : parseUint0 s with
  | none => exact ⟨strBytes s, rfl, Or.inr ⟨rfl, rfl⟩⟩
  | some n => exact ⟨leBytes64 (n % 2 ^ 64), rfl, Or.inl ⟨n, rfl, rfl⟩⟩

/-- C6 counterexample: `stringIntToByte "12"` and `stringIntToByte "012"`
do not return the same byte sequence: `ParseUint` is called with base 0,
so `"012"` is parsed as octal (value 10) while `"12"` is decimal
(value 12). -/
theorem stringIntToByte_leading_zero_counterexample :
    stringIntToByte "12" = Except.ok [12, 0, 0, 0, 0, 0, 0, 0] ∧
    stringIntToByte "012" = Except.ok [10, 0, 0, 0, 0, 0, 0, 0] ∧
    stringIntToByte "12" ≠ stringIntToByte "012" := by
  refine ⟨rfl, rfl, ?_⟩
  intro h
  rw [show stringIntToByte "12" = Except.ok [12, 0, 0, 0, 0, 0, 0, 0] from rfl,
    show stringIntToByte "012" = Except.ok [10, 0, 0, 0, 0, 0, 0, 0] from rfl] at h
  injection h with h
  exact absurd h (by decide)

/-- C6 amended: `"12"` parses as decimal 12 while `"012"` parses as octal
10 (base-0 parsing), so their byte sequences differ; `"12x"` fails to
parse and returns its raw text bytes, which differ from both. -/
theorem stringIntToByte_parse_behaviour :
    stringIntToByte "12" = Except.ok (leBytes64 12) ∧
    stringIntToByte "012" = Except.ok (leBytes64 10) ∧
    stringIntToByte "12x" = Except.ok (strBytes "12x") ∧
    leBytes64 12 ≠ leBytes64 10 ∧
    strBytes "12x" ≠ leBytes64 12 ∧ strBytes "12x" ≠ leBytes64 10 := by
  refine ⟨rfl, rfl, rfl, by decide, by decide, by decide⟩

/-- C7: `defaultSignature` returns a signature of the requested length in
which every slot is the sentinel `infinity = 2^64 - 1`. -/
theorem defaultSignature_all_sentinel (k : Nat) (_hk : 0 < k) :
    (defaultSignature k).length = k ∧ ∀ x ∈ defaultSignature k, x = infinity :=
  ⟨List.length_replicate k infinity, fun _ hx => List.eq_of_mem_replicate hx⟩

/-- Witness for C7 at k = 3. -/
theorem defaultSignature_all_sentinel_witness :
    0 < 3 ∧ ((defaultSignature 3).length = 3 ∧ ∀ x ∈ defaultSignature 3, x = infinity) :=
  ⟨by decide, defaultSignature_all_sentinel 3 (by decide)⟩

/-- C8: the claim says every integer kind listed in the type switch is
encoded as 8 little-endian bytes, but because the multi-type cases leave
the switch variable with interface type, the assertions `t.(uint64)` and
`t.(int64)` panic for every listed kind except exactly `uint64` and
`int64`: `toBytes(uint32(7))` and `toBytes(int(7))` panic, while the
`uint64` and `int64` kinds are encoded as claimed. -/
theorem toBytes_type_assertion_panics :
    (∃ e, toBytes (.uintVal .u32 7) = Except.error e) ∧
    (∃ e, toBytes (.intVal .i 7) = Except.error e) ∧
    toBytes (.uintVal .u64 7) = Except.ok [7, 0, 0, 0, 0, 0, 0, 0] ∧
    toBytes (.intVal .i64 (-1))
      = Except.ok [255, 255, 255, 255, 255, 255, 255, 255] :=
  ⟨⟨_, rfl⟩, ⟨_, rfl⟩, rfl, rfl⟩

/-- C9: `toBytes` on a byte slice returns the slice itself unchanged, so
its output is not always 8 bytes long. -/
theorem toBytes_bytes_identity :
    (∀ b : GoBytes, toBytes (.bytes b) = Except.ok b) ∧
    toBytes (.bytes [1, 2, 3]) = Except.ok [1, 2, 3] ∧
    ([1, 2, 3] : GoBytes).length ≠ 8 :=
  ⟨fun _ => rfl, rfl, by decide⟩

/-- C10: `Intersection` is symmetric in its two size arguments. -/
theorem Intersection_symm (js : ℚ) (n m : ℤ) :
    Intersection js n m = Intersection js m n := by
  unfold Intersection
  rw [add_comm n m]

end Minhash
